import Mathlib

/-!
Verification of the custom convolution operator and the PGD adversarial
perturbation generator of `student_code.py` (CS771 Fall 2024, assignment 2).

The Python code is shallowly embedded over exact rational arithmetic:

* tensors are total functions from (batch, channel, row, column) indices to `ℚ`,
  with sizes carried separately, exactly as torch carries shape metadata;
* `torch.nn.functional.unfold` / `fold` are embedded pointwise
  (`unfoldEntry`, `foldEntry`) following their documented gather / scatter-add
  semantics with zero padding;
* `CustomConv2DFunction.forward` / `backward` become `convForward` /
  `convBackward`; Python exceptions (assertion failures, the `bias.view` call
  on `None`) become `Except.error`;
* `PGDAttack.perturb` becomes `PGDAttack.perturb`; the autograd gradient of
  the loss with respect to the candidate is an oracle in the model record
  (`gradOracle`), `x_adv.grad is None` being `none`; each torch tensor carries
  a `requiresGrad` flag, a leaf flag and an allocation address so that flag
  mutation and aliasing are observable.
-/

/-- A 4-dimensional tensor of rationals indexed (batch, channel, row, column). -/
abbrev Tensor4 : Type := Nat → Nat → Nat → Nat → ℚ

/-- Zero-padded read of a 4-d tensor with spatial sizes `H`, `W` and padding
`pad` on every side: position `(y, x)` of the padded map. -/
def padded (t : Tensor4) (H W pad : Nat) (n c y x : Nat) : ℚ :=
  if pad ≤ y ∧ y < H + pad ∧ pad ≤ x ∧ x < W + pad then t n c (y - pad) (x - pad) else 0

/-- Number of sliding-window positions of a kernel of size `k` moving with
`stride` over an axis of size `size` padded by `pad` on both sides; this is
the block count used by `torch.nn.functional.unfold` and `fold`. -/
def numBlocks (size k stride pad : Nat) : Nat := (size + 2 * pad - k) / stride + 1

/-- Embedding of `torch.nn.functional.unfold(t, K, padding, stride)` for an
input of spatial size `H × W`: entry at flattened-patch row `r` and column
`l`.  Row `r` encodes `(channel, kh, kw)` as `channel * K * K + kh * K + kw`,
column `l` encodes the output position `(l / cols, l % cols)` row-major. -/
def unfoldEntry (t : Tensor4) (H W K stride pad : Nat) (n r l : Nat) : ℚ :=
  padded t H W pad n (r / (K * K))
    ((l / numBlocks W K stride pad) * stride + (r % (K * K)) / K)
    ((l % numBlocks W K stride pad) * stride + (r % (K * K)) % K)

/-- Embedding of `torch.nn.functional.fold(mat, (Htgt, Wtgt), K, padding,
stride)`: scatter-add of the patch matrix back onto a `Htgt × Wtgt` map,
summing every patch entry that lands on the target position. -/
def foldEntry (mat : Nat → Nat → Nat → ℚ) (Htgt Wtgt K stride pad : Nat)
    (n c y x : Nat) : ℚ :=
  ∑ kh ∈ Finset.range K, ∑ kw ∈ Finset.range K,
    ∑ li ∈ Finset.range (numBlocks Htgt K stride pad),
      ∑ lj ∈ Finset.range (numBlocks Wtgt K stride pad),
        if li * stride + kh = y + pad ∧ lj * stride + kw = x + pad then
          mat n (c * (K * K) + kh * K + kw) (li * numBlocks Wtgt K stride pad + lj)
        else 0

/-- Output spatial size as computed by `forward` (`student_code.py` lines
68-71): `(h + 2 * padding - kernel_size + stride) // stride`. -/
def outputDim (size pad k stride : Nat) : Nat := (size + 2 * pad - k + stride) / stride

/-- Embedding of `torch.flatten(weight, start_dim=1)`: row `co`, column `r`
encoding `(ci, kh, kw)` as `ci * K * K + kh * K + kw`. -/
def flattenWeight (weight : Tensor4) (K : Nat) (co r : Nat) : ℚ :=
  weight co (r / (K * K)) ((r % (K * K)) / K) ((r % (K * K)) % K)

/-- Result record of a successful convolution forward call: the four sizes of
the output tensor together with its entries. -/
structure ConvOutput where
  sizeN : Nat
  sizeC : Nat
  sizeH : Nat
  sizeW : Nat
  entry : Tensor4

/-- Embedding of `CustomConv2DFunction.forward` (`student_code.py` lines
32-99).  The input has sizes `N × Cin × H × W`, the weight `Cout × CinW × Kh
× Kw`.  The leading guard collects the `assert` statements (square kernel,
channel match, positive stride, kernel not larger than the padded input; a
non-negative padding is enforced by the `Nat` type).  The body is the
source's unfold / flatten / matmul / fold pipeline; the final bias addition
`output += bias.view(1, bias.size(0), 1, 1)` dereferences the bias tensor
unconditionally, so an absent bias raises, embedded as `Except.error`. -/
def convForward (N Cin H W Cout CinW Kh Kw stride padding : Nat)
    (input weight : Tensor4) (bias : Option (Nat → ℚ)) : Except String ConvOutput :=
  if Kh = Kw ∧ Cin = CinW ∧ 0 < stride ∧ Kh ≤ H + 2 * padding ∧ Kh ≤ W + 2 * padding then
    match bias with
    | none => Except.error "AttributeError: NoneType object has no attribute view"
    | some b =>
        Except.ok
          { sizeN := N
            sizeC := Cout
            sizeH := outputDim H padding Kh stride
            sizeW := outputDim W padding Kh stride
            entry := fun n co i j =>
              foldEntry
                (fun n2 co2 l =>
                  ∑ r ∈ Finset.range (Cin * (Kh * Kh)),
                    flattenWeight weight Kh co2 r * unfoldEntry input H W Kh stride padding n2 r l)
                (outputDim H padding Kh stride) (outputDim W padding Kh stride) 1 1 0 n co i j
              + b co }
  else Except.error "AssertionError"

/-- Entry of the forward output, `0` when the call failed. -/
def convForwardEntry (N Cin H W Cout CinW Kh Kw stride padding : Nat)
    (input weight : Tensor4) (bias : Option (Nat → ℚ)) (n co i j : Nat) : ℚ :=
  match convForward N Cin H W Cout CinW Kh Kw stride padding input weight bias with
  | Except.ok out => out.entry n co i j
  | Except.error _ => 0

/-- Shape of the forward output, `none` when the call failed. -/
def convForwardShape (N Cin H W Cout CinW Kh Kw stride padding : Nat)
    (input weight : Tensor4) (bias : Option (Nat → ℚ)) : Option (Nat × Nat × Nat × Nat) :=
  match convForward N Cin H W Cout CinW Kh Kw stride padding input weight bias with
  | Except.ok out => some (out.sizeN, out.sizeC, out.sizeH, out.sizeW)
  | Except.error _ => none

/-- Success flag of an `Except` value. -/
def isOkE {ε α : Type} : Except ε α → Bool
  | Except.ok _ => true
  | Except.error _ => false

/-- Reference definition following the specification's words: a brute-force
triple-nested-loop 2-D convolution `w * x + b`, gathering for each output
position the `K × K` neighbourhood across all channels with zero padding
outside bounds. -/
def specBruteConv2d (Cin K stride padding H W : Nat) (input weight : Tensor4)
    (b : Nat → ℚ) (n co i j : Nat) : ℚ :=
  (∑ ci ∈ Finset.range Cin, ∑ kh ∈ Finset.range K, ∑ kw ∈ Finset.range K,
    weight co ci kh kw * padded input H W padding n ci (i * stride + kh) (j * stride + kw))
  + b co

/-- Embedding of `CustomConv2DFunction.backward` (`student_code.py` lines
102-163).  Saved state: the unfolded input `unfolded_feats`, `weight` and the
optional `bias`; context: `stride`, `padding` and the input spatial sizes `H
× W`.  `HoutG × WoutG` are the spatial sizes of `grad_output`,
`needsBiasGrad` is `ctx.needs_input_grad[2]`.  Returns `(grad_input,
grad_weight, grad_bias)`; the backward code never dereferences the bias and
only computes `grad_bias = grad_output.sum((0, 2, 3))` when the bias is
present and its gradient is requested, otherwise leaves it `None`. -/
def convBackward (N Cout K stride padding H W HoutG WoutG : Nat)
    (unfolded_feats : Nat → Nat → Nat → ℚ) (weight : Tensor4)
    (bias : Option (Nat → ℚ)) (needsBiasGrad : Bool)
    (grad_output : Tensor4) : Tensor4 × Tensor4 × Option (Nat → ℚ) :=
  let ugo := fun n c l => unfoldEntry grad_output HoutG WoutG 1 1 0 n c l
  let grad_weight : Tensor4 := fun co ci kh kw =>
    ∑ n ∈ Finset.range N,
      ∑ l ∈ Finset.range (HoutG * WoutG),
        ugo n co l * unfolded_feats n (ci * (K * K) + kh * K + kw) l
  let grad_input : Tensor4 :=
    foldEntry
      (fun n r l => ∑ co ∈ Finset.range Cout, flattenWeight weight K co r * ugo n co l)
      H W K stride padding
  let grad_bias : Option (Nat → ℚ) :=
    match bias, needsBiasGrad with
    | some _, true =>
        some (fun co =>
          ∑ n ∈ Finset.range N, ∑ i ∈ Finset.range HoutG, ∑ j ∈ Finset.range WoutG,
            grad_output n co i j)
    | _, _ => none
  (grad_input, grad_weight, grad_bias)

/-- Embedding of the `CustomConv2d` module (`student_code.py` lines 169-228).
The constructor stores every argument; `dilation` and `groups` are accepted
as arbitrary integers with no validation ("not used (for compatibility)"). -/
structure CustomConv2d where
  in_channels : Nat
  out_channels : Nat
  kernel_size : Nat
  stride : Nat
  padding : Nat
  dilation : Int
  groups : Int
  weight : Tensor4
  bias : Option (Nat → ℚ)

/-- Embedding of `CustomConv2d.__init__`: no value-level check touches
`dilation` or `groups`; construction always succeeds and stores them. -/
def CustomConv2d.init (in_channels out_channels kernel_size stride padding : Nat)
    (dilation groups : Int) (weight : Tensor4) (bias : Option (Nat → ℚ)) : CustomConv2d :=
  ⟨in_channels, out_channels, kernel_size, stride, padding, dilation, groups, weight, bias⟩

/-- Embedding of `CustomConv2d.forward` (line 219): delegates to the custom
convolution with the stored weight, bias, stride and padding; the stored
`dilation` and `groups` are never read. -/
def CustomConv2d.forward (m2 : CustomConv2d) (N Cin H W : Nat) (input : Tensor4) :
    Except String ConvOutput :=
  convForward N Cin H W m2.out_channels m2.in_channels m2.kernel_size m2.kernel_size
    m2.stride m2.padding input m2.weight m2.bias

/-- Embedding of `torch.clamp(v, lo, hi)`: apply the lower bound, then the
upper bound. -/
def clampQ (v lo hi : ℚ) : ℚ := min (max v lo) hi

/-- Embedding of `torch.sign`. -/
def qsign (v : ℚ) : ℚ := if 0 < v then 1 else if v < 0 then -1 else 0

/-- A torch tensor as seen by the PGD code: element data (flattened index),
the `requires_grad` flag, whether it is an autograd leaf (detached from any
computation history), and its allocation address (fresh per allocation, used
to reason about aliasing). -/
structure PTensor where
  data : Nat → ℚ
  requiresGrad : Bool
  isLeaf : Bool
  addr : Nat

/-- State carried through the PGD loop: a fresh-address counter and the
current adversarial candidate `x_adv`. -/
structure PGDState where
  counter : Nat
  x : PTensor

/-- The differentiable model attacked by PGD, as the embedding sees it:
per-example class scores `apply x n c` for `c < numClasses`, and the
autograd oracle `gradOracle x labels` standing for the gradient of
`loss_fn(model(x), labels)` with respect to `x` accumulated in `x_adv.grad`
after `loss.backward()`; `none` models `x_adv.grad is None`. -/
structure ModelM where
  numClasses : Nat
  apply : (Nat → ℚ) → Nat → Nat → ℚ
  gradOracle : (Nat → ℚ) → (Nat → Nat) → Option (Nat → ℚ)

/-- Embedding of `PGDAttack.__init__` (`student_code.py` lines 656-672). -/
structure PGDAttack where
  lossFn : (Nat → Nat → ℚ) → (Nat → Nat) → ℚ
  num_steps : Nat
  step_size : ℚ
  epsilon : ℚ

/-- Index of the first minimal value among `s 0, …, s (n - 1)`, which is what
`torch.min(y_adv, 1)` returns as indices (first occurrence on ties). -/
def argminScore (s : Nat → ℚ) : Nat → Nat
  | 0 => 0
  | n + 1 =>
      if s n < s (argminScore s n) then n else argminScore s n

/-- Per-example least-confident pseudo-labels computed from the model scores
on candidate data `xdata` (lines 699-701). -/
def pgdLabels (m : ModelM) (xdata : Nat → ℚ) : Nat → Nat :=
  fun n => argminScore (m.apply xdata n) m.numClasses

/-- Message of the `RuntimeError` raised at line 710 when no gradient reached
the candidate. -/
def gradMissingMsg : String := "RuntimeError: Gradient for x_adv is None"

/-- One iteration of the PGD loop (`student_code.py` lines 698-721): model
forward, least-confident pseudo-labels via `torch.min(y_adv, 1)`, loss,
backward (the gradient oracle; `model.zero_grad()` only clears parameter
gradients and leaves the candidate untouched), fail-fast on a missing
gradient, signed step `x_adv + step_size * sign(grad)`, clamp onto
`[input - epsilon, input + epsilon]`, detach twice, re-enable
`requires_grad` in place for the next iteration. -/
def pgdStep (m : ModelM) (atk : PGDAttack) (input : PTensor) (st : PGDState) :
    Except String PGDState :=
  let y_adv := m.apply st.x.data
  let least_prob_index := fun n => argminScore (y_adv n) m.numClasses
  let _loss := atk.lossFn y_adv least_prob_index
  match m.gradOracle st.x.data least_prob_index with
  | none => Except.error gradMissingMsg
  | some g =>
      let grad_sign := fun i => qsign (g i)
      let stepped : PTensor :=
        ⟨fun i => st.x.data i + atk.step_size * grad_sign i, true, false, st.counter⟩
      let clamped : PTensor :=
        ⟨fun i => clampQ (stepped.data i) (input.data i - atk.epsilon) (input.data i + atk.epsilon),
          true, false, st.counter + 1⟩
      let det1 : PTensor := ⟨clamped.data, false, true, st.counter + 2⟩
      let det2 : PTensor := ⟨det1.data, false, true, st.counter + 3⟩
      let tracked : PTensor := ⟨det2.data, true, det2.isLeaf, det2.addr⟩
      Except.ok ⟨st.counter + 4, tracked⟩

/-- The `for _ in range(self.num_steps)` loop of `perturb`, by remaining
iteration count. -/
def perturbLoop (m : ModelM) (atk : PGDAttack) (input : PTensor) :
    Nat → PGDState → Except String PGDState
  | 0, st => Except.ok st
  | k + 1, st =>
      match pgdStep m atk input st with
      | Except.error e => Except.error e
      | Except.ok st2 => perturbLoop m atk input k st2

/-- Effect of line 690 (`input.requires_grad = False`) on the caller's input
tensor: same storage and data, flag cleared. -/
def inputFrozen (input0 : PTensor) : PTensor :=
  ⟨input0.data, false, input0.isLeaf, input0.addr⟩

/-- Initial loop state from lines 689-691: `x_adv = input.clone().detach()`
allocates a fresh leaf copying the data, then `x_adv.requires_grad = True`. -/
def pgdInit (input0 : PTensor) : PGDState :=
  ⟨input0.addr + 2, ⟨input0.data, true, true, input0.addr + 1⟩⟩

/-- Embedding of `PGDAttack.perturb` (`student_code.py` lines 674-724).  The
first component is the caller's input tensor after the call (its
`requires_grad` flag was assigned at line 690), the second the returned
adversarial sample or the raised error. -/
def PGDAttack.perturb (atk : PGDAttack) (m : ModelM) (input0 : PTensor) :
    PTensor × Except String PTensor :=
  (inputFrozen input0,
    Except.map PGDState.x
      (perturbLoop m atk (inputFrozen input0) atk.num_steps (pgdInit input0)))

/-- Candidate data after one PGD step, `none` when the step raised. -/
def stepData (m : ModelM) (atk : PGDAttack) (input : PTensor) (st : PGDState) :
    Option (Nat → ℚ) :=
  match pgdStep m atk input st with
  | Except.ok st2 => some st2.x.data
  | Except.error _ => none


/-! ### Concrete instances used by witnesses and counterexamples -/

/-- A trivial one-class model whose gradient oracle always returns the zero
gradient. -/
def modelZeroGrad : ModelM := ⟨1, fun _ _ _ => 0, fun _ _ => some (fun _ => 0)⟩

/-- A one-class model whose gradient oracle always returns the constant-one
gradient. -/
def modelOneGrad : ModelM := ⟨1, fun _ _ _ => 0, fun _ _ => some (fun _ => 1)⟩

/-- A one-class model whose gradient oracle never produces a gradient,
modelling a broken gradient path. -/
def modelNoGrad : ModelM := ⟨1, fun _ _ _ => 0, fun _ _ => none⟩

/-- PGD attack with zero steps and a negative epsilon. -/
def atkNegEps : PGDAttack := ⟨fun _ _ => 0, 0, 0, -1⟩

/-- PGD attack with zero steps and epsilon 1. -/
def atkZeroSteps : PGDAttack := ⟨fun _ _ => 0, 0, 1, 1⟩

/-- PGD attack with one step, step size 1 and epsilon 0. -/
def atkOneStep : PGDAttack := ⟨fun _ _ => 0, 1, 1, 0⟩

/-- An all-zero input tensor, not tracked for gradient, at address 0. -/
def inputZero : PTensor := ⟨fun _ => 0, false, true, 0⟩

/-- An all-zero input tensor that is tracked for gradient, at address 5. -/
def inputTracked : PTensor := ⟨fun _ => 0, true, true, 5⟩

/-! ### Helper lemmas -/

lemma sum_range_mul (m n : Nat) (f : Nat → ℚ) :
    ∑ r ∈ Finset.range (m * n), f r
      = ∑ i ∈ Finset.range m, ∑ j ∈ Finset.range n, f (i * n + j) := by
  induction m with
  | zero => simp
  | succ m ih =>
      rw [Nat.succ_mul, Finset.sum_range_add, ih, Finset.sum_range_succ]

lemma outputDim_eq_spec (size pad k stride : Nat) (hs : 0 < stride) :
    outputDim size pad k stride = (size + 2 * pad - k) / stride + 1 := by
  unfold outputDim
  exact Nat.add_div_right _ hs

lemma numBlocks_eq_outputDim (size k stride pad : Nat) (hs : 0 < stride) :
    numBlocks size k stride pad = outputDim size pad k stride := by
  rw [outputDim_eq_spec _ _ _ _ hs]; rfl

lemma outputDim_pos (size pad k stride : Nat) (hs : 0 < stride) :
    0 < outputDim size pad k stride := by
  rw [outputDim_eq_spec _ _ _ _ hs]
  exact Nat.succ_pos _

lemma numBlocks_one (size : Nat) (h : 0 < size) : numBlocks size 1 1 0 = size := by
  unfold numBlocks
  omega

lemma idx_div_sq (ci kh kw K : Nat) (hkh : kh < K) (hkw : kw < K) :
    (ci * (K * K) + (kh * K + kw)) / (K * K) = ci := by
  have hq : kh * K + kw < K * K := by
    calc kh * K + kw < kh * K + K := by omega
      _ = (kh + 1) * K := by ring
      _ ≤ K * K := Nat.mul_le_mul_right K hkh
  have hK : 0 < K := lt_of_le_of_lt (Nat.zero_le kh) hkh
  have hKK : 0 < K * K := Nat.mul_pos hK hK
  rw [add_comm, mul_comm ci (K * K), Nat.add_mul_div_left _ _ hKK,
    Nat.div_eq_of_lt hq, Nat.zero_add]

lemma idx_mod_sq (ci kh kw K : Nat) (hkh : kh < K) (hkw : kw < K) :
    (ci * (K * K) + (kh * K + kw)) % (K * K) = kh * K + kw := by
  have hq : kh * K + kw < K * K := by
    calc kh * K + kw < kh * K + K := by omega
      _ = (kh + 1) * K := by ring
      _ ≤ K * K := Nat.mul_le_mul_right K hkh
  rw [add_comm, mul_comm ci (K * K), Nat.add_mul_mod_self_left, Nat.mod_eq_of_lt hq]

lemma idx_div_k (kh kw K : Nat) (hkw : kw < K) : (kh * K + kw) / K = kh := by
  have hK : 0 < K := lt_of_le_of_lt (Nat.zero_le kw) hkw
  rw [add_comm, mul_comm kh K, Nat.add_mul_div_left _ _ hK, Nat.div_eq_of_lt hkw,
    Nat.zero_add]

lemma idx_mod_k (kh kw K : Nat) (hkw : kw < K) : (kh * K + kw) % K = kw := by
  rw [add_comm, Nat.add_mul_mod_self_right, Nat.mod_eq_of_lt hkw]

lemma foldEntry_kernel_one (mat : Nat → Nat → Nat → ℚ) (Hgt Wgt : Nat)
    (hH : 0 < Hgt) (hW : 0 < Wgt) (n c i j : Nat) (hi : i < Hgt) (hj : j < Wgt) :
    foldEntry mat Hgt Wgt 1 1 0 n c i j = mat n c (i * Wgt + j) := by
  unfold foldEntry
  rw [numBlocks_one Hgt hH, numBlocks_one Wgt hW]
  simp only [Finset.sum_range_one, Nat.mul_one, Nat.add_zero, Nat.zero_mul, Nat.one_mul,
    Nat.zero_add]
  have hrow : ∀ li ∈ Finset.range Hgt,
      (∑ lj ∈ Finset.range Wgt, if li = i ∧ lj = j then mat n c (li * Wgt + lj) else 0)
        = if li = i then mat n c (li * Wgt + j) else 0 := by
    intro li _
    by_cases h : li = i
    · subst h
      simp [Finset.sum_ite_eq', Finset.mem_range, hj]
    · simp [h]
  rw [Finset.sum_congr rfl hrow]
  simp [Finset.sum_ite_eq', Finset.mem_range, hi]

lemma matmul_row_eq_brute (Cin K stride padding H W : Nat) (input weight : Tensor4)
    (hs : 0 < stride) (n co i j : Nat) (hj : j < outputDim W padding K stride) :
    (∑ r ∈ Finset.range (Cin * (K * K)),
        flattenWeight weight K co r
          * unfoldEntry input H W K stride padding n r (i * outputDim W padding K stride + j))
      = ∑ ci ∈ Finset.range Cin, ∑ kh ∈ Finset.range K, ∑ kw ∈ Finset.range K,
          weight co ci kh kw
            * padded input H W padding n ci (i * stride + kh) (j * stride + kw) := by
  rw [sum_range_mul]
  refine Finset.sum_congr rfl (fun ci _ => ?_)
  rw [sum_range_mul]
  refine Finset.sum_congr rfl (fun kh hkh => ?_)
  refine Finset.sum_congr rfl (fun kw hkw => ?_)
  rw [Finset.mem_range] at hkh hkw
  have hdiv : (i * outputDim W padding K stride + j) / outputDim W padding K stride = i :=
    idx_div_k i j _ hj
  have hmod : (i * outputDim W padding K stride + j) % outputDim W padding K stride = j :=
    idx_mod_k i j _ hj
  unfold flattenWeight unfoldEntry
  rw [numBlocks_eq_outputDim _ _ _ _ hs, idx_div_sq ci kh kw K hkh hkw,
    idx_mod_sq ci kh kw K hkh hkw, idx_div_k kh kw K hkw, idx_mod_k kh kw K hkw,
    hdiv, hmod]

lemma convForward_ok (N Cin H W Cout K stride padding : Nat) (input weight : Tensor4)
    (b : Nat → ℚ) (hs : 0 < stride) (hH : K ≤ H + 2 * padding) (hW : K ≤ W + 2 * padding) :
    convForward N Cin H W Cout Cin K K stride padding input weight (some b)
      = Except.ok
          { sizeN := N
            sizeC := Cout
            sizeH := outputDim H padding K stride
            sizeW := outputDim W padding K stride
            entry := fun n co i j =>
              foldEntry
                (fun n2 co2 l =>
                  ∑ r ∈ Finset.range (Cin * (K * K)),
                    flattenWeight weight K co2 r * unfoldEntry input H W K stride padding n2 r l)
                (outputDim H padding K stride) (outputDim W padding K stride) 1 1 0 n co i j
              + b co } := by
  unfold convForward
  rw [if_pos ⟨rfl, rfl, hs, hH, hW⟩]

/-- C1: the claim asks that with `bias = None` both the convolution forward
call and the matching backward call succeed and that backward returns an
absent bias gradient.  The backward code indeed guards the bias (second
conjunct: its `grad_bias` output is `none` even when the bias gradient is
requested), but the forward code dereferences the absent bias at line 89
(`output += bias.view(...)`) and raises, so the claim fails on the code:
at a fully valid input (1x1x1x1 input, 1x1x1x1 weight, stride 1, padding 0)
the forward call errors instead of succeeding. -/
theorem conv_forward_absent_bias_raises :
    convForward 1 1 1 1 1 1 1 1 1 0 (fun _ _ _ _ => 0) (fun _ _ _ _ => 1) none
        = Except.error "AttributeError: NoneType object has no attribute view" ∧
    (convBackward 1 1 1 1 0 1 1 1 1 (fun _ _ _ => 0) (fun _ _ _ _ => 1) none true
        (fun _ _ _ _ => 1)).2.2 = none := by
  exact ⟨rfl, rfl⟩

/-- C2: on every valid configuration (positive stride, kernel fitting in the
padded input) and every output position inside the declared output shape,
the unfold / matmul / fold forward pass produces exactly the brute-force
triple-nested-loop convolution value `w * x + b`, over exact rational
arithmetic. -/
theorem conv_forward_matches_bruteforce
    (N Cin H W Cout K stride padding : Nat) (input weight : Tensor4) (b : Nat → ℚ)
    (hs : 0 < stride) (hH : K ≤ H + 2 * padding) (hW : K ≤ W + 2 * padding)
    (n co i j : Nat)
    (hi : i < outputDim H padding K stride) (hj : j < outputDim W padding K stride) :
    isOkE (convForward N Cin H W Cout Cin K K stride padding input weight (some b)) = true ∧
    convForwardEntry N Cin H W Cout Cin K K stride padding input weight (some b) n co i j
      = specBruteConv2d Cin K stride padding H W input weight b n co i j := by
  constructor
  · rw [convForward_ok N Cin H W Cout K stride padding input weight b hs hH hW]
    rfl
  · unfold convForwardEntry
    rw [convForward_ok N Cin H W Cout K stride padding input weight b hs hH hW]
    show foldEntry _ (outputDim H padding K stride) (outputDim W padding K stride)
        1 1 0 n co i j + b co = _
    rw [foldEntry_kernel_one _ _ _ (outputDim_pos _ _ _ _ hs) (outputDim_pos _ _ _ _ hs)
      n co i j hi hj]
    show (∑ r ∈ Finset.range (Cin * (K * K)),
        flattenWeight weight K co r
          * unfoldEntry input H W K stride padding n r
              (i * outputDim W padding K stride + j)) + b co = _
    rw [matmul_row_eq_brute Cin K stride padding H W input weight hs n co i j hj]
    rfl

/-- Witness for C2 at a concrete instance: constant input 2, weight 3, bias
1, all sizes 1, stride 1, padding 0. -/
theorem conv_forward_matches_bruteforce_witness :
    0 < 1 ∧ (1 ≤ 1 + 2 * 0) ∧ 0 < outputDim 1 0 1 1 ∧
    (isOkE (convForward 1 1 1 1 1 1 1 1 1 0 (fun _ _ _ _ => 2) (fun _ _ _ _ => 3)
        (some fun _ => 1)) = true ∧
      convForwardEntry 1 1 1 1 1 1 1 1 1 0 (fun _ _ _ _ => 2) (fun _ _ _ _ => 3)
          (some fun _ => 1) 0 0 0 0
        = specBruteConv2d 1 1 1 0 1 1 (fun _ _ _ _ => 2) (fun _ _ _ _ => 3)
            (fun _ => 1) 0 0 0 0) :=
  ⟨by decide, by decide, by decide,
    conv_forward_matches_bruteforce 1 1 1 1 1 1 1 0 (fun _ _ _ _ => 2) (fun _ _ _ _ => 3)
      (fun _ => 1) (by decide) (by decide) (by decide) 0 0 0 0 (by decide) (by decide)⟩

/-- C3: for every valid stride, padding, kernel and input size the source's
output-size expression `(size + 2 * pad - k + stride) // stride` equals the
declared formula `(size + 2 * pad - k) / stride + 1`, and the two concrete
scenarios produce output shapes (1, 4, 8, 8) and (1, 4, 3, 3). -/
theorem conv_output_shape_formula :
    (∀ (size pad k stride : Nat), 0 < stride → k ≤ size + 2 * pad →
        outputDim size pad k stride = (size + 2 * pad - k) / stride + 1) ∧
    (∀ (input weight : Tensor4) (b : Nat → ℚ),
        convForwardShape 1 3 8 8 4 3 3 3 1 1 input weight (some b) = some (1, 4, 8, 8)) ∧
    (∀ (input weight : Tensor4) (b : Nat → ℚ),
        convForwardShape 1 3 8 8 4 3 3 3 2 0 input weight (some b) = some (1, 4, 3, 3)) := by
  refine ⟨fun size pad k stride hs _ => outputDim_eq_spec size pad k stride hs, ?_, ?_⟩
  · intro input weight b
    unfold convForwardShape
    rw [convForward_ok 1 3 8 8 4 3 1 1 input weight b (by decide) (by decide) (by decide)]
    rfl
  · intro input weight b
    unfold convForwardShape
    rw [convForward_ok 1 3 8 8 4 3 2 0 input weight b (by decide) (by decide) (by decide)]
    rfl

/-- Witness for C3 at stride 1, padding 1, kernel 3 over an axis of size 8. -/
theorem conv_output_shape_formula_witness :
    0 < 1 ∧ 3 ≤ 8 + 2 * 1 ∧ outputDim 8 1 3 1 = (8 + 2 * 1 - 3) / 1 + 1 :=
  ⟨by decide, by decide, conv_output_shape_formula.1 8 1 3 1 (by decide) (by decide)⟩

/-- C6: the `grad_bias` component of backward is the sum of `grad_output`
over the batch and both spatial dimensions, one scalar per output channel,
and it is produced exactly when the bias was present and its gradient is
requested; otherwise it is `none`. -/
theorem conv_backward_grad_bias (N Cout K stride padding H W HoutG WoutG : Nat)
    (unfolded_feats : Nat → Nat → Nat → ℚ) (weight : Tensor4)
    (bias : Option (Nat → ℚ)) (needsBiasGrad : Bool) (grad_output : Tensor4) :
    (convBackward N Cout K stride padding H W HoutG WoutG unfolded_feats weight bias
        needsBiasGrad grad_output).2.2
      = if bias.isSome ∧ needsBiasGrad = true then
          some (fun co =>
            ∑ n ∈ Finset.range N, ∑ i ∈ Finset.range HoutG, ∑ j ∈ Finset.range WoutG,
              grad_output n co i j)
        else none := by
  cases bias <;> cases needsBiasGrad <;> simp [convBackward]

/-- C10: the module constructor accepts and stores arbitrary `dilation` and
`groups` values without validation, and the forward output is identical
whatever those two values are — they are never read by `forward`. -/
theorem custom_conv2d_ignores_dilation_groups
    (ic oc k s p : Nat) (d gr d2 gr2 : Int) (w : Tensor4) (b : Option (Nat → ℚ))
    (N Cin H W : Nat) (input : Tensor4) :
    (CustomConv2d.init ic oc k s p d gr w b).dilation = d ∧
    (CustomConv2d.init ic oc k s p d gr w b).groups = gr ∧
    (CustomConv2d.init ic oc k s p d gr w b).forward N Cin H W input
      = (CustomConv2d.init ic oc k s p d2 gr2 w b).forward N Cin H W input :=
  ⟨rfl, rfl, rfl⟩

lemma exceptMap_ok {α β : Type} (f : α → β) (e : Except String α) (v : β)
    (h : Except.map f e = Except.ok v) : ∃ w, e = Except.ok w ∧ v = f w := by
  cases e with
  | error a => cases h
  | ok a => exact ⟨a, rfl, by cases h; rfl⟩

lemma clampQ_ball (v a e : ℚ) (he : 0 ≤ e) : |clampQ v (a - e) (a + e) - a| ≤ e := by
  unfold clampQ
  rw [abs_le]
  constructor
  · have h1 : a - e ≤ max v (a - e) := le_max_right _ _
    have h2 : a - e ≤ a + e := by linarith
    have h3 := le_min h1 h2
    linarith
  · have h4 := min_le_right (max v (a - e)) (a + e)
    linarith

lemma argminScore_lt (s : Nat → ℚ) : ∀ n, 0 < n → argminScore s n < n := by
  intro n
  induction n with
  | zero => intro h; cases h
  | succ n ih =>
      intro _
      show (if s n < s (argminScore s n) then n else argminScore s n) < n + 1
      by_cases h : s n < s (argminScore s n)
      · rw [if_pos h]; exact Nat.lt_succ_self n
      · rw [if_neg h]
        rcases Nat.eq_zero_or_pos n with h0 | hp
        · subst h0; exact Nat.zero_lt_one
        · exact Nat.lt_succ_of_lt (ih hp)

lemma argminScore_le (s : Nat → ℚ) : ∀ n c, c < n → s (argminScore s n) ≤ s c := by
  intro n
  induction n with
  | zero => intro c hc; cases hc
  | succ n ih =>
      intro c hc
      show s (if s n < s (argminScore s n) then n else argminScore s n) ≤ s c
      by_cases h : s n < s (argminScore s n)
      · rw [if_pos h]
        rcases Nat.lt_succ_iff_lt_or_eq.mp hc with h1 | h1
        · exact le_trans (le_of_lt h) (ih c h1)
        · subst h1; exact le_refl _
      · rw [if_neg h]
        rcases Nat.lt_succ_iff_lt_or_eq.mp hc with h1 | h1
        · exact ih c h1
        · subst h1; exact le_of_not_lt h

lemma pgdStep_eq_of_none (m : ModelM) (atk : PGDAttack) (input : PTensor) (st : PGDState)
    (hg : m.gradOracle st.x.data (pgdLabels m st.x.data) = none) :
    pgdStep m atk input st = Except.error gradMissingMsg := by
  have h2 : m.gradOracle st.x.data
      (fun n => argminScore (m.apply st.x.data n) m.numClasses) = none := hg
  simp only [pgdStep, h2]

lemma pgdStep_eq_of_some (m : ModelM) (atk : PGDAttack) (input : PTensor) (st : PGDState)
    (g : Nat → ℚ)
    (hg : m.gradOracle st.x.data (pgdLabels m st.x.data) = some g) :
    pgdStep m atk input st
      = Except.ok
          ⟨st.counter + 4,
            ⟨fun i => clampQ (st.x.data i + atk.step_size * qsign (g i))
                (input.data i - atk.epsilon) (input.data i + atk.epsilon),
              true, true, st.counter + 3⟩⟩ := by
  have h2 : m.gradOracle st.x.data
      (fun n => argminScore (m.apply st.x.data n) m.numClasses) = some g := hg
  simp only [pgdStep, h2]

lemma pgdStep_ok_shape (m : ModelM) (atk : PGDAttack) (input : PTensor) (st st2 : PGDState)
    (h : pgdStep m atk input st = Except.ok st2) :
    ∃ g, m.gradOracle st.x.data (pgdLabels m st.x.data) = some g ∧
      st2.counter = st.counter + 4 ∧
      st2.x.requiresGrad = true ∧ st2.x.isLeaf = true ∧ st2.x.addr = st.counter + 3 ∧
      ∀ i, st2.x.data i
        = clampQ (st.x.data i + atk.step_size * qsign (g i))
            (input.data i - atk.epsilon) (input.data i + atk.epsilon) := by
  cases hg : m.gradOracle st.x.data (pgdLabels m st.x.data) with
  | none =>
      rw [pgdStep_eq_of_none m atk input st hg] at h
      cases h
  | some g =>
      rw [pgdStep_eq_of_some m atk input st g hg] at h
      injection h with h2
      subst h2
      exact ⟨g, rfl, rfl, rfl, rfl, rfl, fun i => rfl⟩

lemma perturbLoop_cases (m : ModelM) (atk : PGDAttack) (input : PTensor)
    (P : PGDState → Prop)
    (hstep : ∀ st st2, pgdStep m atk input st = Except.ok st2 → P st2) :
    ∀ k st st2, perturbLoop m atk input k st = Except.ok st2 → st2 = st ∨ P st2 := by
  intro k
  induction k with
  | zero =>
      intro st st2 h
      simp only [perturbLoop] at h
      injection h with h2
      exact Or.inl h2.symm
  | succ k ih =>
      intro st st2 h
      simp only [perturbLoop] at h
      cases hs : pgdStep m atk input st with
      | error e => simp only [hs] at h; cases h
      | ok st1 =>
          simp only [hs] at h
          rcases ih st1 st2 h with h1 | h2
          · exact Or.inr (by rw [h1]; exact hstep st st1 hs)
          · exact Or.inr h2

lemma perturbLoop_pres (m : ModelM) (atk : PGDAttack) (input : PTensor)
    (P : PGDState → Prop)
    (hstep : ∀ st st2, P st → pgdStep m atk input st = Except.ok st2 → P st2) :
    ∀ k st st2, P st → perturbLoop m atk input k st = Except.ok st2 → P st2 := by
  intro k
  induction k with
  | zero =>
      intro st st2 hP h
      simp only [perturbLoop] at h
      injection h with h2
      rw [← h2]; exact hP
  | succ k ih =>
      intro st st2 hP h
      simp only [perturbLoop] at h
      cases hs : pgdStep m atk input st with
      | error e => simp only [hs] at h; cases h
      | ok st1 =>
          simp only [hs] at h
          exact ih st1 st2 (hstep st st1 hP hs) h

/-- C4 (amended): for every model, input, step size and number of steps, and
every epsilon that is non-negative, the adversarial candidate maintained by
`perturb` stays inside the L-infinity epsilon ball around the unchanged
original input at the end of every loop iteration (state after `j`
iterations, any `j`) and in the returned value.  The original claim
quantified over every epsilon; it fails for negative epsilon (see the
counterexample), where the ball is empty but `perturb` still returns a
candidate. -/
theorem perturb_linf_bound (m : ModelM) (atk : PGDAttack) (input0 : PTensor)
    (heps : 0 ≤ atk.epsilon) :
    (∀ j st2, perturbLoop m atk (inputFrozen input0) j (pgdInit input0) = Except.ok st2 →
        ∀ i, |st2.x.data i - input0.data i| ≤ atk.epsilon) ∧
    (∀ c, (atk.perturb m input0).2 = Except.ok c →
        ∀ i, |c.data i - input0.data i| ≤ atk.epsilon) := by
  have hstep : ∀ st st2, pgdStep m atk (inputFrozen input0) st = Except.ok st2 →
      ∀ i, |st2.x.data i - input0.data i| ≤ atk.epsilon := by
    intro st st2 h i
    obtain ⟨g, _, _, _, _, _, hdata⟩ := pgdStep_ok_shape m atk (inputFrozen input0) st st2 h
    rw [hdata i]
    exact clampQ_ball _ (input0.data i) _ heps
  have hloop : ∀ j st2,
      perturbLoop m atk (inputFrozen input0) j (pgdInit input0) = Except.ok st2 →
      ∀ i, |st2.x.data i - input0.data i| ≤ atk.epsilon := by
    intro j st2 h i
    rcases perturbLoop_cases m atk (inputFrozen input0)
        (fun st => ∀ i, |st.x.data i - input0.data i| ≤ atk.epsilon) hstep j
        (pgdInit input0) st2 h with h1 | h2
    · rw [h1]
      show |input0.data i - input0.data i| ≤ atk.epsilon
      rw [sub_self, abs_zero]
      exact heps
    · exact h2 i
  refine ⟨hloop, ?_⟩
  intro c hc i
  have hc2 : Except.map PGDState.x
      (perturbLoop m atk (inputFrozen input0) atk.num_steps (pgdInit input0))
        = Except.ok c := hc
  obtain ⟨st2, hres, hcx⟩ := exceptMap_ok _ _ _ hc2
  rw [hcx]
  exact hloop atk.num_steps st2 hres i

/-- Witness for the amended C4 at a concrete instance with epsilon 1 and zero
steps: the returned candidate (the detached clone) is inside the ball. -/
theorem perturb_linf_bound_witness :
    0 ≤ atkZeroSteps.epsilon ∧
    |((pgdInit inputZero).x).data 0 - inputZero.data 0| ≤ atkZeroSteps.epsilon :=
  ⟨by decide,
    (perturb_linf_bound modelZeroGrad atkZeroSteps inputZero (by decide)).1 0
      (pgdInit inputZero) rfl 0⟩

/-- C4 counterexample: with epsilon = -1 and zero steps, `perturb` succeeds
and returns the cloned input, whose distance 0 to the original is not below
epsilon, so the claim as stated (for every epsilon) is false. -/
theorem perturb_linf_bound_cex :
    (atkNegEps.perturb modelZeroGrad inputZero).2 = Except.ok ((pgdInit inputZero).x) ∧
    ¬ (|((pgdInit inputZero).x).data 0 - inputZero.data 0| ≤ atkNegEps.epsilon) := by
  refine ⟨rfl, ?_⟩
  show ¬ (|(0 : ℚ) - 0| ≤ -1)
  norm_num

/-- C5: each PGD iteration uses per-example pseudo-labels attaining the
lowest predicted score among the model's classes, and on a delivered
gradient `g` updates the candidate to
`clamp(candidate + step_size * sign(g), original - epsilon, original +
epsilon)` — the step adds (does not subtract) the signed gradient. -/
theorem pgd_step_update (m : ModelM) (atk : PGDAttack) (input : PTensor) (st : PGDState)
    (g : Nat → ℚ) (hnc : 0 < m.numClasses)
    (hg : m.gradOracle st.x.data (pgdLabels m st.x.data) = some g) :
    (∀ n, pgdLabels m st.x.data n < m.numClasses ∧
        ∀ c, c < m.numClasses →
          m.apply st.x.data n (pgdLabels m st.x.data n) ≤ m.apply st.x.data n c) ∧
    stepData m atk input st
      = some (fun i => clampQ (st.x.data i + atk.step_size * qsign (g i))
          (input.data i - atk.epsilon) (input.data i + atk.epsilon)) := by
  constructor
  · intro n
    exact ⟨argminScore_lt _ _ hnc, fun c hc => argminScore_le _ _ c hc⟩
  · unfold stepData
    rw [pgdStep_eq_of_some m atk input st g hg]

/-- Witness for C5 at a concrete one-class model with constant-one gradient,
step size 1, epsilon 0. -/
theorem pgd_step_update_witness :
    0 < modelOneGrad.numClasses ∧
    modelOneGrad.gradOracle (pgdInit inputZero).x.data
        (pgdLabels modelOneGrad (pgdInit inputZero).x.data) = some (fun _ => 1) ∧
    pgdLabels modelOneGrad (pgdInit inputZero).x.data 0 < modelOneGrad.numClasses ∧
    stepData modelOneGrad atkOneStep inputZero (pgdInit inputZero)
      = some (fun i => clampQ ((pgdInit inputZero).x.data i
            + atkOneStep.step_size * qsign ((fun _ => (1 : ℚ)) i))
          (inputZero.data i - atkOneStep.epsilon) (inputZero.data i + atkOneStep.epsilon)) :=
  ⟨by decide, rfl,
    ((pgd_step_update modelOneGrad atkOneStep inputZero (pgdInit inputZero)
        (fun _ => 1) (by decide) rfl).1 0).1,
    (pgd_step_update modelOneGrad atkOneStep inputZero (pgdInit inputZero)
        (fun _ => 1) (by decide) rfl).2⟩

/-- C7 (amended): the candidate returned by `perturb` is a leaf detached
from any prior computation history, but it is marked `requires_grad = True`
at return — both when `num_steps = 0` (the initial clone is tracked at line
691) and after any number of steps (line 721 re-enables tracking at the end
of every iteration, including the last).  The original claim, that the
returned candidate is not gradient-tracked, is refuted by the
counterexample. -/
theorem perturb_returns_tracked_leaf (m : ModelM) (atk : PGDAttack) (input0 : PTensor) :
    ∀ c, (atk.perturb m input0).2 = Except.ok c →
      c.requiresGrad = true ∧ c.isLeaf = true := by
  intro c hc
  have hc2 : Except.map PGDState.x
      (perturbLoop m atk (inputFrozen input0) atk.num_steps (pgdInit input0))
        = Except.ok c := hc
  obtain ⟨st2, hres, hcx⟩ := exceptMap_ok _ _ _ hc2
  have hstep : ∀ st st2, pgdStep m atk (inputFrozen input0) st = Except.ok st2 →
      st2.x.requiresGrad = true ∧ st2.x.isLeaf = true := by
    intro st st2 h
    obtain ⟨g, _, _, hrg, hleaf, _, _⟩ :=
      pgdStep_ok_shape m atk (inputFrozen input0) st st2 h
    exact ⟨hrg, hleaf⟩
  rcases perturbLoop_cases m atk (inputFrozen input0)
      (fun st => st.x.requiresGrad = true ∧ st.x.isLeaf = true) hstep
      atk.num_steps (pgdInit input0) st2 hres with h1 | h2
  · rw [hcx, h1]; exact ⟨rfl, rfl⟩
  · rw [hcx]; exact h2

/-- Witness for the amended C7: with zero steps the returned clone has
`requires_grad = True` and is a leaf. -/
theorem perturb_returns_tracked_leaf_witness :
    (atkZeroSteps.perturb modelOneGrad inputZero).2 = Except.ok ((pgdInit inputZero).x) ∧
    ((pgdInit inputZero).x).requiresGrad = true ∧ ((pgdInit inputZero).x).isLeaf = true :=
  ⟨rfl, perturb_returns_tracked_leaf modelOneGrad atkZeroSteps inputZero _ rfl⟩

/-- C7 counterexample: at a concrete call the returned candidate has
`requires_grad = True`, refuting the claim that it is not marked as a
gradient-tracked leaf at return. -/
theorem perturb_returns_tracked_leaf_cex :
    (atkNegEps.perturb modelNoGrad inputZero).2 = Except.ok ((pgdInit inputZero).x) ∧
    ¬ (((pgdInit inputZero).x).requiresGrad = false) :=
  ⟨rfl, by decide⟩

/-- C8 (amended): `perturb` never changes the element values of the caller's
input tensor and the returned candidate is a freshly allocated tensor that
does not alias the input; however, the call does mutate the caller's tensor
metadata, assigning `requires_grad = False` at line 690 (see the
counterexample), so the input does not remain entirely untouched. -/
theorem perturb_input_data_preserved (m : ModelM) (atk : PGDAttack) (input0 : PTensor) :
    (∀ i, ((atk.perturb m input0).1).data i = input0.data i) ∧
    ((atk.perturb m input0).1).requiresGrad = false ∧
    (∀ c, (atk.perturb m input0).2 = Except.ok c → c.addr ≠ input0.addr) := by
  refine ⟨fun i => rfl, rfl, ?_⟩
  intro c hc
  have hc2 : Except.map PGDState.x
      (perturbLoop m atk (inputFrozen input0) atk.num_steps (pgdInit input0))
        = Except.ok c := hc
  obtain ⟨st2, hres, hcx⟩ := exceptMap_ok _ _ _ hc2
  have hstep : ∀ st st2, (input0.addr < st.x.addr ∧ input0.addr < st.counter) →
      pgdStep m atk (inputFrozen input0) st = Except.ok st2 →
      input0.addr < st2.x.addr ∧ input0.addr < st2.counter := by
    intro st st2 hP h
    obtain ⟨g, _, hcnt, _, _, haddr, _⟩ :=
      pgdStep_ok_shape m atk (inputFrozen input0) st st2 h
    rw [hcnt, haddr]
    omega
  have hinv : input0.addr < st2.x.addr ∧ input0.addr < st2.counter :=
    perturbLoop_pres m atk (inputFrozen input0)
      (fun st => input0.addr < st.x.addr ∧ input0.addr < st.counter) hstep
      atk.num_steps (pgdInit input0) st2 (by constructor <;> (show _ < _ + _; omega)) hres
  rw [hcx]
  exact ne_of_gt hinv.1

/-- Witness for the amended C8: with zero steps the returned clone lives at
a fresh address distinct from the input's. -/
theorem perturb_input_data_preserved_witness :
    (atkZeroSteps.perturb modelZeroGrad inputTracked).2
        = Except.ok ((pgdInit inputTracked).x) ∧
    ((pgdInit inputTracked).x).addr ≠ inputTracked.addr :=
  ⟨rfl, (perturb_input_data_preserved modelZeroGrad atkZeroSteps inputTracked).2.2 _ rfl⟩

/-- C8 counterexample: calling `perturb` on an input tensor with
`requires_grad = True` leaves the caller's tensor with `requires_grad =
False` — the tensor was mutated, refuting the claim that the input is never
mutated and remains read-only throughout. -/
theorem perturb_input_data_preserved_cex :
    inputTracked.requiresGrad = true ∧
    ((atkZeroSteps.perturb modelZeroGrad inputTracked).1).requiresGrad = false ∧
    (atkZeroSteps.perturb modelZeroGrad inputTracked).1 ≠ inputTracked := by
  refine ⟨rfl, rfl, ?_⟩
  intro h
  exact absurd (congrArg PTensor.requiresGrad h) (by decide)

/-- C9: when the gradient oracle delivers no gradient for the first
iteration (a broken gradient path, `x_adv.grad is None`), `perturb` raises
the explicit `RuntimeError` instead of continuing; and a delivered gradient
— in particular the all-zero gradient — never triggers that error, so a
missing gradient is never conflated with a zero gradient. -/
theorem pgd_missing_grad_raises (m : ModelM) (atk : PGDAttack) (input0 : PTensor)
    (hsteps : 0 < atk.num_steps)
    (hg : m.gradOracle input0.data (pgdLabels m input0.data) = none) :
    (atk.perturb m input0).2 = Except.error gradMissingMsg ∧
    (∀ (input : PTensor) (st : PGDState) (g : Nat → ℚ),
        m.gradOracle st.x.data (pgdLabels m st.x.data) = some g →
        stepData m atk input st ≠ none) := by
  constructor
  · show Except.map PGDState.x
        (perturbLoop m atk (inputFrozen input0) atk.num_steps (pgdInit input0))
          = Except.error gradMissingMsg
    obtain ⟨k, hk⟩ : ∃ k, atk.num_steps = k + 1 := ⟨atk.num_steps - 1, by omega⟩
    rw [hk]
    have hstep : pgdStep m atk (inputFrozen input0) (pgdInit input0)
        = Except.error gradMissingMsg :=
      pgdStep_eq_of_none m atk (inputFrozen input0) (pgdInit input0) hg
    simp only [perturbLoop, hstep]
    rfl
  · intro input st g hgs
    unfold stepData
    rw [pgdStep_eq_of_some m atk input st g hgs]
    simp

/-- Witness for C9: a one-step attack against a model whose oracle returns
no gradient raises the runtime error. -/
theorem pgd_missing_grad_raises_witness :
    0 < atkOneStep.num_steps ∧
    modelNoGrad.gradOracle inputZero.data (pgdLabels modelNoGrad inputZero.data) = none ∧
    (atkOneStep.perturb modelNoGrad inputZero).2 = Except.error gradMissingMsg :=
  ⟨by decide, rfl,
    (pgd_missing_grad_raises modelNoGrad atkOneStep inputZero (by decide) rfl).1⟩
